import Mathlib

/-!
Verification of the shynese flashcard application core: the study-session
scheduling algorithm (ordering query, session state machine, score-update
rule), shallowly embedded from the TypeScript source.

Numbers held in JavaScript variables are modelled exactly: integer-valued
counters as Nat (or Int where the code can clamp below zero), exact
rational arithmetic for the percentage computations, with Math.round
modelled as rounding half toward positive infinity.  The NaN produced by
a zero-over-zero division is modelled with Option (none = NaN), which the
isNaN guard in the source maps back to 0.
-/

/-- Model of JavaScript Math.round on a finite number: rounds half toward
positive infinity. -/
def jsRound (q : ℚ) : ℤ := ⌊q + 1/2⌋

/-- Model of JavaScript division as used in getStats: the only
zero-denominator case reachable there is 0/0, which is NaN (none). -/
def jsDiv (a b : ℚ) : Option ℚ := if b = 0 then none else some (a / b)

/-- Database row shape of the characters table (interface CharacterRow in
storage.ts).  Timestamps are modelled as integers (epoch instants). -/
structure CharacterRow where
  id : String
  user_id : String
  chinese : String
  pinyin : String
  english : String
  category : String
  score : ℤ
  attempts : ℕ
  correct_count : ℕ
  last_reviewed : ℤ
  created_at : ℤ
  deriving DecidableEq, Repr

/-- Public character shape (interface Character in storage.ts). -/
structure Character where
  id : String
  chinese : String
  pinyin : String
  english : String
  category : String
  score : ℤ
  attempts : ℕ
  correctCount : ℕ
  lastReviewed : ℤ
  deriving DecidableEq, Repr

/-- storage.mapRowToCharacter: maps a database row to the public shape. -/
def mapRowToCharacter (r : CharacterRow) : Character :=
  { id := r.id
    chinese := r.chinese
    pinyin := r.pinyin
    english := r.english
    category := r.category
    score := r.score
    attempts := r.attempts
    correctCount := r.correct_count
    lastReviewed := r.last_reviewed }

/-- storage.addCharacter: the inserted row is initialized with score 0,
attempts 0, correct_count 0 and last_reviewed the current time (the id,
user id and creation time are assigned by the database on insert). -/
def addCharacterRow (i uid ch p e cat : String) (now : ℤ) : CharacterRow :=
  { id := i
    user_id := uid
    chinese := ch
    pinyin := p
    english := e
    category := cat
    score := 0
    attempts := 0
    correct_count := 0
    last_reviewed := now
    created_at := now }

/-- storage.recordAnswer: the pure row update it writes.  attempts is
incremented; on a correct answer correct_count and score are incremented;
on an incorrect answer score becomes max(0, score - 1) and correct_count
is unchanged; last_reviewed is set to the time of the answer. -/
def recordAnswer (r : CharacterRow) (isCorrect : Bool) (now : ℤ) : CharacterRow :=
  { r with
    attempts := r.attempts + 1
    correct_count := if isCorrect then r.correct_count + 1 else r.correct_count
    score := if isCorrect then r.score + 1 else max 0 (r.score - 1)
    last_reviewed := now }

/-- Folding storage.recordAnswer over a sequence of (isCorrect, time)
answers. -/
def applyAnswers (r : CharacterRow) (l : List (Bool × ℤ)) : CharacterRow :=
  l.foldl (fun acc x => recordAnswer acc x.1 x.2) r

/-- Comparison used by the ordering query of storage.getStudySession:
order by score ascending, then attempts descending.  Returns true when a
may come at or before b. -/
def studyLE (a b : CharacterRow) : Bool :=
  decide (a.score < b.score) ||
    (decide (a.score = b.score) && decide (b.attempts ≤ a.attempts))

/-- Row-level result of storage.getStudySession.  Modelled from the spec:
the database executing the query is not part of this repository; per the
spec the order clauses are a stable two-key sort over the collection in
its natural retrieval order, the eq clause keeps exactly the rows of the
chosen category, and limit 10 keeps the first 10 rows.  The condition on
the category argument mirrors the source exactly: the filter applies only
when the argument is present, non-empty (JavaScript truthiness) and not
the sentinel "all"; otherwise the query is limited to 10 rows. -/
def studyRows (store : List CharacterRow) (category : Option String) : List CharacterRow :=
  let sorted := store.mergeSort studyLE
  match category with
  | some c => if c ≠ "" ∧ c ≠ "all" then sorted.filter (fun r => r.category == c) else sorted.take 10
  | none => sorted.take 10

/-- storage.getStudySession: the ordering query, returning public-shaped
characters. -/
def getStudySession (store : List CharacterRow) (category : Option String) : List Character :=
  (studyRows store category).map mapRowToCharacter

/-- Session state (interface StudySession in flashcard-logic.ts). -/
structure StudySession where
  characters : List Character
  currentIndex : ℕ
  totalCards : ℕ
  correctAnswers : ℕ
  incorrectAnswers : ℕ
  deriving DecidableEq, Repr

/-- flashcardLogic.createSession. -/
def createSession (characters : List Character) : StudySession :=
  { characters := characters
    currentIndex := 0
    totalCards := characters.length
    correctAnswers := 0
    incorrectAnswers := 0 }

/-- flashcardLogic.getCurrentCharacter. -/
def getCurrentCharacter (s : StudySession) : Option Character :=
  if s.characters.length ≤ s.currentIndex then none
  else s.characters[s.currentIndex]?

/-- flashcardLogic.nextCharacter. -/
def nextCharacter (s : StudySession) : StudySession :=
  { s with currentIndex := s.currentIndex + 1 }

/-- flashcardLogic.recordAnswerAndNext. -/
def recordAnswerAndNext (s : StudySession) (isCorrect : Bool) : StudySession :=
  { s with
    currentIndex := s.currentIndex + 1
    correctAnswers := if isCorrect then s.correctAnswers + 1 else s.correctAnswers
    incorrectAnswers := if isCorrect then s.incorrectAnswers else s.incorrectAnswers + 1 }

/-- flashcardLogic.isSessionComplete: currentIndex >= characters.length. -/
def isSessionComplete (s : StudySession) : Bool :=
  s.characters.length ≤ s.currentIndex

/-- flashcardLogic.getProgress: Math.round(currentIndex / totalCards * 100),
with 0 returned when totalCards is 0. -/
def getProgress (s : StudySession) : ℤ :=
  if s.totalCards = 0 then 0
  else jsRound ((s.currentIndex : ℚ) / (s.totalCards : ℚ) * 100)

/-- Result shape of flashcardLogic.getStats. -/
structure SessionStats where
  total : ℕ
  completed : ℕ
  correct : ℕ
  incorrect : ℕ
  accuracy : ℤ
  remaining : ℤ
  deriving DecidableEq, Repr

/-- flashcardLogic.getStats: accuracy is Math.round(correct / (correct +
incorrect) * 100) when totalCards > 0 and otherwise 0; when the division
is 0/0 the result is NaN (modelled as none) and the isNaN guard in the
source replaces it with 0. -/
def getStats (s : StudySession) : SessionStats :=
  let accuracy : Option ℤ :=
    if 0 < s.totalCards then
      (jsDiv (s.correctAnswers : ℚ) ((s.correctAnswers : ℚ) + (s.incorrectAnswers : ℚ))).map
        (fun q => jsRound (q * 100))
    else some 0
  { total := s.totalCards
    completed := s.currentIndex
    correct := s.correctAnswers
    incorrect := s.incorrectAnswers
    accuracy := accuracy.getD 0
    remaining := (s.totalCards : ℤ) - (s.currentIndex : ℤ) }

/-- Sessions reachable from createSession using only recordAnswerAndNext. -/
inductive ReachableByAnswers : StudySession → Prop
  | create (items : List Character) : ReachableByAnswers (createSession items)
  | record (s : StudySession) (b : Bool) :
      ReachableByAnswers s → ReachableByAnswers (recordAnswerAndNext s b)

/-- A sample character used in concrete witnesses. -/
def sampleChar : Character :=
  { id := "c1"
    chinese := "water"
    pinyin := "shui"
    english := "water"
    category := "Nature"
    score := 0
    attempts := 0
    correctCount := 0
    lastReviewed := 0 }

/-- Ordering relation claimed of the study-session output: score
ascending, ties broken by attempts descending. -/
def charOrd (a b : Character) : Prop :=
  a.score < b.score ∨ (a.score = b.score ∧ b.attempts ≤ a.attempts)

/-- Row builder used in concrete witnesses. -/
def mkRow (i : String) (sc : ℤ) (att : ℕ) (cat : String) (created : ℤ) : CharacterRow :=
  { id := i
    user_id := "u"
    chinese := i
    pinyin := i
    english := i
    category := cat
    score := sc
    attempts := att
    correct_count := 0
    last_reviewed := 0
    created_at := created }

/-- Concrete store used in the witness of the ordering-query claim. -/
def wStore : List CharacterRow :=
  [mkRow "A" 2 5 "Nature" 3, mkRow "B" 0 3 "Nature" 2, mkRow "C" 0 1 "Numbers" 1]

/-- Concrete store used in the witness of the stability claim: two rows
with equal (score, attempts), most recently created first. -/
def wStore2 : List CharacterRow :=
  [mkRow "X" 0 2 "Nature" 5, mkRow "Y" 0 2 "Nature" 4, mkRow "Z" 1 0 "Nature" 3]

/-- Evaluation rule for jsRound at a concrete value. -/
theorem jsRound_eq (q : ℚ) (z : ℤ) (h₁ : (z : ℚ) ≤ q + 1/2) (h₂ : q + 1/2 < z + 1) :
    jsRound q = z := by
  rw [jsRound]
  exact Int.floor_eq_iff.mpr ⟨h₁, h₂⟩

/-- Transitivity of the two-key comparison of the ordering query. -/
theorem studyLE_trans : ∀ a b c : CharacterRow, studyLE a b → studyLE b c → studyLE a c := by
  intro a b c hab hbc
  simp only [studyLE, Bool.or_eq_true, Bool.and_eq_true, decide_eq_true_eq] at hab hbc ⊢
  omega

/-- Totality of the two-key comparison of the ordering query. -/
theorem studyLE_total : ∀ a b : CharacterRow, studyLE a b || studyLE b a := by
  intro a b
  simp only [studyLE, Bool.or_eq_true, Bool.and_eq_true, decide_eq_true_eq]
  omega

/-- Every row returned by the study query comes from the store. -/
theorem mem_store_of_mem_studyRows {store : List CharacterRow} {category : Option String}
    {x : CharacterRow} (hx : x ∈ studyRows store category) : x ∈ store := by
  have hsub : ∀ {y : CharacterRow}, y ∈ store.mergeSort studyLE → y ∈ store :=
    fun hy => List.mem_mergeSort.mp hy
  cases category with
  | none =>
      simp only [studyRows] at hx
      exact hsub ((List.take_sublist 10 _).subset hx)
  | some c =>
      simp only [studyRows] at hx
      split at hx
      · exact hsub (List.mem_filter.mp hx).1
      · exact hsub ((List.take_sublist 10 _).subset hx)

/-- Two elements of a strictly sorted list occur in the list's order: if
the list is pairwise related by R, R a b holds and R b a fails, then
[a, b] is a sublist. -/
theorem pair_sublist_of_pairwise {α : Type} {R : α → α → Prop} :
    ∀ {l : List α} {a b : α}, l.Pairwise R → a ∈ l → b ∈ l → R a b → ¬ R b a →
      List.Sublist [a, b] l := by
  intro l
  induction l with
  | nil => intro a b _ ha _ _ _; simp at ha
  | cons x t ih =>
      intro a b hp ha hb hab hnba
      obtain ⟨hx, ht⟩ := List.pairwise_cons.mp hp
      rcases List.mem_cons.mp ha with rfl | hat2
      · have hbt : b ∈ t := by
          rcases List.mem_cons.mp hb with rfl | h
          · exact absurd hab hnba
          · exact h
        exact (List.singleton_sublist.mpr hbt).cons₂ a
      · rcases List.mem_cons.mp hb with rfl | hbt
        · exact absurd (hx a hat2) hnba
        · exact (ih ht hat2 hbt hab hnba).cons x

/-- A pair sublist of a duplicate-free list survives truncation when its
second element is within the kept prefix. -/
theorem pair_sublist_take {α : Type} :
    ∀ (n : ℕ) (l : List α) (a b : α), l.Nodup → List.Sublist [a, b] l → b ∈ l.take n →
      List.Sublist [a, b] (l.take n) := by
  intro n
  induction n with
  | zero => intro l a b _ _ hb; simp at hb
  | succ m ih =>
      intro l a b hnd hs hb
      cases l with
      | nil => simp at hb
      | cons x t =>
          obtain ⟨hxt, hndt⟩ := List.nodup_cons.mp hnd
          rw [List.take_succ_cons] at hb ⊢
          cases hs with
          | cons _ h =>
              have hbt : b ∈ t.take m := by
                rcases List.mem_cons.mp hb with rfl | h2
                · exact absurd (h.subset (by simp)) hxt
                · exact h2
              exact (ih t a b hndt h hbt).cons x
          | cons₂ _ h =>
              have hbt : b ∈ t.take m := by
                rcases List.mem_cons.mp hb with rfl | h2
                · exact absurd (List.singleton_sublist.mp h) hxt
                · exact h2
              exact (List.singleton_sublist.mpr hbt).cons₂ _

/-- Claim C2: recording one answer increments attempts; a correct answer
increments correctCount and score; an incorrect answer clamps score at
max(0, score - 1) and leaves correctCount unchanged.  From (0,0,0), three
incorrect answers give (score 0, attempts 3, correctCount 0), and one
correct then one incorrect gives (score 0, attempts 2, correctCount 1). -/
theorem recordAnswer_update_spec :
    (∀ (r : CharacterRow) (b : Bool) (now : ℤ),
      (recordAnswer r b now).attempts = r.attempts + 1) ∧
    (∀ (r : CharacterRow) (now : ℤ),
      (recordAnswer r true now).correct_count = r.correct_count + 1 ∧
      (recordAnswer r true now).score = r.score + 1 ∧
      (recordAnswer r false now).score = max 0 (r.score - 1) ∧
      (recordAnswer r false now).correct_count = r.correct_count) ∧
    ((applyAnswers (addCharacterRow "i" "u" "c" "p" "e" "k" 0)
        [(false, 1), (false, 2), (false, 3)]).score = 0 ∧
     (applyAnswers (addCharacterRow "i" "u" "c" "p" "e" "k" 0)
        [(false, 1), (false, 2), (false, 3)]).attempts = 3 ∧
     (applyAnswers (addCharacterRow "i" "u" "c" "p" "e" "k" 0)
        [(false, 1), (false, 2), (false, 3)]).correct_count = 0) ∧
    ((applyAnswers (addCharacterRow "i" "u" "c" "p" "e" "k" 0)
        [(true, 1), (false, 2)]).score = 0 ∧
     (applyAnswers (addCharacterRow "i" "u" "c" "p" "e" "k" 0)
        [(true, 1), (false, 2)]).attempts = 2 ∧
     (applyAnswers (addCharacterRow "i" "u" "c" "p" "e" "k" 0)
        [(true, 1), (false, 2)]).correct_count = 1) := by
  refine ⟨fun r b now => rfl, fun r now => ⟨rfl, rfl, rfl, rfl⟩, ?_, ?_⟩ <;> refine ⟨?_, rfl, rfl⟩ <;> decide

/-- Claim C6: recordAnswerAndNext returns a session with currentIndex
incremented, exactly one tally incremented according to isCorrect, and
the characters and totalCards fields unchanged. -/
theorem recordAnswerAndNext_frame_spec (s : StudySession) (b : Bool) :
    (recordAnswerAndNext s b).currentIndex = s.currentIndex + 1 ∧
    (recordAnswerAndNext s b).characters = s.characters ∧
    (recordAnswerAndNext s b).totalCards = s.totalCards ∧
    (recordAnswerAndNext s b).correctAnswers =
      (if b then s.correctAnswers + 1 else s.correctAnswers) ∧
    (recordAnswerAndNext s b).incorrectAnswers =
      (if b then s.incorrectAnswers else s.incorrectAnswers + 1) := by
  cases b <;> exact ⟨rfl, rfl, rfl, rfl, rfl⟩

/-- Claim C10: nextCharacter increments currentIndex and leaves every
other field unchanged; applied to a session satisfying the tally balance
correct + incorrect = currentIndex, the result no longer satisfies it. -/
theorem nextCharacter_frame_spec (s : StudySession) :
    (nextCharacter s).currentIndex = s.currentIndex + 1 ∧
    (nextCharacter s).characters = s.characters ∧
    (nextCharacter s).totalCards = s.totalCards ∧
    (nextCharacter s).correctAnswers = s.correctAnswers ∧
    (nextCharacter s).incorrectAnswers = s.incorrectAnswers ∧
    ((getStats s).correct + (getStats s).incorrect = s.currentIndex →
      ¬ ((getStats (nextCharacter s)).correct + (getStats (nextCharacter s)).incorrect
          = (nextCharacter s).currentIndex)) := by
  refine ⟨rfl, rfl, rfl, rfl, rfl, fun h => ?_⟩
  simp only [getStats, nextCharacter] at h ⊢
  omega

/-- Claim C10 witness at a concrete session. -/
theorem nextCharacter_frame_spec_witness :
    (nextCharacter (createSession [sampleChar])).currentIndex
      = (createSession [sampleChar]).currentIndex + 1 ∧
    (nextCharacter (createSession [sampleChar])).characters
      = (createSession [sampleChar]).characters ∧
    (nextCharacter (createSession [sampleChar])).totalCards
      = (createSession [sampleChar]).totalCards ∧
    (nextCharacter (createSession [sampleChar])).correctAnswers
      = (createSession [sampleChar]).correctAnswers ∧
    (nextCharacter (createSession [sampleChar])).incorrectAnswers
      = (createSession [sampleChar]).incorrectAnswers ∧
    ((getStats (createSession [sampleChar])).correct
        + (getStats (createSession [sampleChar])).incorrect
        = (createSession [sampleChar]).currentIndex →
      ¬ ((getStats (nextCharacter (createSession [sampleChar]))).correct
          + (getStats (nextCharacter (createSession [sampleChar]))).incorrect
          = (nextCharacter (createSession [sampleChar])).currentIndex)) :=
  nextCharacter_frame_spec (createSession [sampleChar])

set_option maxRecDepth 4000 in
/-- Claim C3 counterexample: the claimed equivalence of progress 100 with
session completion fails.  A 200-card session at index 199 has progress
round(99.5) = 100 while not complete, and a session whose cursor has run
past the end (reachable by repeated cursor advances) has progress 500,
outside [0, 100]. -/
theorem getProgress_claim_cex :
    getProgress
      { characters := List.replicate 200 sampleChar, currentIndex := 199,
        totalCards := 200, correctAnswers := 99, incorrectAnswers := 100 } = 100 ∧
    isSessionComplete
      { characters := List.replicate 200 sampleChar, currentIndex := 199,
        totalCards := 200, correctAnswers := 99, incorrectAnswers := 100 } = false ∧
    getProgress
      { characters := [sampleChar], currentIndex := 5,
        totalCards := 1, correctAnswers := 0, incorrectAnswers := 0 } = 500 := by
  refine ⟨?_, by decide, ?_⟩
  · simp only [getProgress]
    norm_num
    exact jsRound_eq _ 100 (by norm_num) (by norm_num)
  · simp only [getProgress]
    norm_num
    exact jsRound_eq _ 500 (by norm_num) (by norm_num)

/-- Claim C3 (amended): for every session whose totalCards agrees with the
character count and whose cursor has not run past the end, getProgress
lies in [0, 100]; it is 0 for a freshly created session (also when
totalCards = 0); and whenever the session is complete with totalCards > 0
it equals 100.  The converse fails: progress 100 is also reached one card
before completion once totalCards reaches 200, and the empty session is
complete with progress 0. -/
theorem getProgress_bounds_spec (s : StudySession)
    (hlen : s.totalCards = s.characters.length)
    (hle : s.currentIndex ≤ s.totalCards) :
    0 ≤ getProgress s ∧ getProgress s ≤ 100 ∧
    (∀ items : List Character, getProgress (createSession items) = 0) ∧
    (isSessionComplete s = true → 0 < s.totalCards → getProgress s = 100) := by
  have hcreate : ∀ items : List Character, getProgress (createSession items) = 0 := by
    intro items
    simp only [getProgress, createSession, jsRound]
    split
    · rfl
    · norm_num
  refine ⟨?_, ?_, hcreate, ?_⟩
  · unfold getProgress jsRound
    split
    · norm_num
    · refine Int.le_floor.mpr ?_
      have h0 : (0 : ℚ) ≤ (s.currentIndex : ℚ) / (s.totalCards : ℚ) * 100 := by positivity
      push_cast
      linarith
  · unfold getProgress jsRound
    split
    · norm_num
    · rename_i hn
      have hnpos : (0 : ℚ) < (s.totalCards : ℚ) := by
        have : 0 < s.totalCards := Nat.pos_of_ne_zero hn
        exact_mod_cast this
      have hq : (s.currentIndex : ℚ) / (s.totalCards : ℚ) ≤ 1 := by
        rw [div_le_one hnpos]
        exact_mod_cast hle
      have : ⌊(s.currentIndex : ℚ) / (s.totalCards : ℚ) * 100 + 1/2⌋ < 101 := by
        refine Int.floor_lt.mpr ?_
        push_cast
        nlinarith
      omega
  · intro hc hpos
    have hge : s.characters.length ≤ s.currentIndex := by
      simpa [isSessionComplete] using hc
    have hidx : s.currentIndex = s.totalCards := le_antisymm hle (hlen ▸ hge)
    unfold getProgress jsRound
    have hn0 : s.totalCards ≠ 0 := Nat.pos_iff_ne_zero.mp hpos
    simp only [hn0, if_false, hidx]
    have hnq : (s.totalCards : ℚ) ≠ 0 := Nat.cast_ne_zero.mpr hn0
    rw [div_self hnq]
    norm_num

/-- Claim C3 witness: the amended statement applied to a freshly created
one-card session. -/
theorem getProgress_bounds_spec_witness :
    0 ≤ getProgress (createSession [sampleChar]) ∧
    getProgress (createSession [sampleChar]) ≤ 100 ∧
    (∀ items : List Character, getProgress (createSession items) = 0) ∧
    (isSessionComplete (createSession [sampleChar]) = true →
      0 < (createSession [sampleChar]).totalCards →
      getProgress (createSession [sampleChar]) = 100) :=
  getProgress_bounds_spec (createSession [sampleChar]) rfl (by decide)

/-- Claim C4 counterexample: advancing an already-complete session does
not fail loudly; the call returns normally and silently changes state.
createSession [] is immediately complete, yet recordAnswerAndNext on it
returns a plain session value with the cursor and one tally incremented,
different from its input. -/
theorem recordAnswerAndNext_complete_cex :
    isSessionComplete (createSession ([] : List Character)) = true ∧
    recordAnswerAndNext (createSession ([] : List Character)) true
      = { characters := [], currentIndex := 1, totalCards := 0,
          correctAnswers := 1, incorrectAnswers := 0 } ∧
    recordAnswerAndNext (createSession ([] : List Character)) true
      ≠ createSession ([] : List Character) := by
  decide

/-- Claim C4 (amended): calling recordAnswerAndNext on a session that is
already complete is not detected by the code: there is no assertion or
exception; the call is tolerated as a silent state change (not a no-op),
returning a session with currentIndex incremented past the deck that is
itself still complete.  Callers must check isSessionComplete first. -/
theorem recordAnswerAndNext_complete_tolerated (s : StudySession) (b : Bool)
    (h : isSessionComplete s = true) :
    recordAnswerAndNext s b ≠ s ∧
    (recordAnswerAndNext s b).currentIndex = s.currentIndex + 1 ∧
    isSessionComplete (recordAnswerAndNext s b) = true := by
  refine ⟨?_, rfl, ?_⟩
  · intro heq
    have : s.currentIndex + 1 = s.currentIndex := congrArg StudySession.currentIndex heq
    omega
  · have hge : s.characters.length ≤ s.currentIndex := by
      simpa [isSessionComplete] using h
    simp only [isSessionComplete, recordAnswerAndNext]
    simpa using Nat.le_succ_of_le hge

/-- Claim C4 witness: the amended statement applied to the empty session. -/
theorem recordAnswerAndNext_complete_tolerated_witness :
    recordAnswerAndNext (createSession ([] : List Character)) true
      ≠ createSession ([] : List Character) ∧
    (recordAnswerAndNext (createSession ([] : List Character)) true).currentIndex
      = (createSession ([] : List Character)).currentIndex + 1 ∧
    isSessionComplete (recordAnswerAndNext (createSession ([] : List Character)) true) = true :=
  recordAnswerAndNext_complete_tolerated (createSession []) true (by decide)

/-- Claim C5 counterexample: the tally balance is not preserved by every
session operation.  nextCharacter, applied to a fresh one-card session,
yields a session with correct + incorrect = 0 but currentIndex = 1. -/
theorem statsBalance_allOps_cex :
    (getStats (nextCharacter (createSession [sampleChar]))).correct
      + (getStats (nextCharacter (createSession [sampleChar]))).incorrect = 0 ∧
    (nextCharacter (createSession [sampleChar])).currentIndex = 1 ∧
    ¬ ((getStats (nextCharacter (createSession [sampleChar]))).correct
        + (getStats (nextCharacter (createSession [sampleChar]))).incorrect
        = (nextCharacter (createSession [sampleChar])).currentIndex) := by
  decide

/-- Claim C5 (amended): for every session reachable from createSession by
recordAnswerAndNext alone (the answer-recording operation; nextCharacter
excluded), getStats(session).correct + getStats(session).incorrect equals
session.currentIndex. -/
theorem statsBalance_reachable (s : StudySession) (h : ReachableByAnswers s) :
    (getStats s).correct + (getStats s).incorrect = s.currentIndex := by
  induction h with
  | create items => rfl
  | record t b ht ih =>
      cases b <;> simp [getStats, recordAnswerAndNext] at ih ⊢ <;> omega

/-- Claim C5 witness: the amended invariant at a concrete reachable
session. -/
theorem statsBalance_reachable_witness :
    (getStats (recordAnswerAndNext (createSession [sampleChar]) true)).correct
      + (getStats (recordAnswerAndNext (createSession [sampleChar]) true)).incorrect
      = (recordAnswerAndNext (createSession [sampleChar]) true).currentIndex :=
  statsBalance_reachable _
    (ReachableByAnswers.record _ true (ReachableByAnswers.create _))

/-- Claim C7 counterexample: accuracy is guarded on totalCards, not on the
answered count.  The session reached by answering once on an empty deck
has correct = 1 and incorrect = 0, so the claim demands round(1/1*100) =
100, but the code returns 0 because totalCards = 0. -/
theorem getStats_accuracy_cex :
    (getStats (recordAnswerAndNext (createSession ([] : List Character)) true)).correct = 1 ∧
    (getStats (recordAnswerAndNext (createSession ([] : List Character)) true)).incorrect = 0 ∧
    jsRound ((1 : ℚ) / ((1 : ℚ) + (0 : ℚ)) * 100) = 100 ∧
    (getStats (recordAnswerAndNext (createSession ([] : List Character)) true)).accuracy = 0 := by
  refine ⟨by decide, by decide, ?_, by decide⟩
  exact jsRound_eq _ 100 (by norm_num) (by norm_num)

/-- Claim C7 (amended): accuracy equals round(correct / (correct +
incorrect) * 100) when totalCards > 0 and correct + incorrect > 0; it
equals 0 when correct + incorrect = 0 (the 0/0 NaN is explicitly guarded
to 0, never propagated) and also whenever totalCards = 0. -/
theorem getStats_accuracy_spec (s : StudySession) :
    (0 < s.totalCards → 0 < s.correctAnswers + s.incorrectAnswers →
      (getStats s).accuracy
        = jsRound ((s.correctAnswers : ℚ)
            / ((s.correctAnswers : ℚ) + (s.incorrectAnswers : ℚ)) * 100)) ∧
    (s.correctAnswers + s.incorrectAnswers = 0 → (getStats s).accuracy = 0) ∧
    (s.totalCards = 0 → (getStats s).accuracy = 0) := by
  have hsum : ((s.correctAnswers : ℚ) + (s.incorrectAnswers : ℚ) = 0)
      ↔ s.correctAnswers + s.incorrectAnswers = 0 := by
    constructor
    · intro h
      have : ((s.correctAnswers + s.incorrectAnswers : ℕ) : ℚ) = 0 := by push_cast; linarith
      exact_mod_cast this
    · intro h
      have : ((s.correctAnswers + s.incorrectAnswers : ℕ) : ℚ) = 0 := by exact_mod_cast h
      push_cast at this
      linarith
  refine ⟨?_, ?_, ?_⟩
  · intro htot hans
    have hne : ¬ ((s.correctAnswers : ℚ) + (s.incorrectAnswers : ℚ) = 0) := by
      intro h
      have h2 := hsum.mp h
      omega
    simp only [getStats, jsDiv]
    rw [if_pos htot, if_neg hne]
    rfl
  · intro h
    simp only [getStats, jsDiv]
    split
    · rw [if_pos (hsum.mpr h)]
      rfl
    · rfl
  · intro h
    simp only [getStats, jsDiv, h]
    rfl

/-- Claim C7 witness: the amended statement evaluated at a one-card
session with one correct answer and at a fresh session. -/
theorem getStats_accuracy_spec_witness :
    (getStats (recordAnswerAndNext (createSession [sampleChar]) true)).accuracy
      = jsRound ((1 : ℚ) / ((1 : ℚ) + (0 : ℚ)) * 100) ∧
    (getStats (createSession [sampleChar])).accuracy = 0 :=
  ⟨(getStats_accuracy_spec (recordAnswerAndNext (createSession [sampleChar]) true)).1
      (by decide) (by decide),
    (getStats_accuracy_spec (createSession [sampleChar])).2.1 (by decide)⟩

/-- Claim C9: for a character created by addCharacter (score 0, attempts
0, correctCount 0) and any sequence of recorded answers, correctCount ≤
attempts and score ≥ 0 hold at all times; a single application of the
score-update rule preserves both. -/
theorem scoreInvariants_spec :
    (∀ (r : CharacterRow) (b : Bool) (now : ℤ),
      r.correct_count ≤ r.attempts → 0 ≤ r.score →
      (recordAnswer r b now).correct_count ≤ (recordAnswer r b now).attempts ∧
      0 ≤ (recordAnswer r b now).score) ∧
    (∀ (i uid ch p e cat : String) (now : ℤ) (l : List (Bool × ℤ)),
      (applyAnswers (addCharacterRow i uid ch p e cat now) l).correct_count
        ≤ (applyAnswers (addCharacterRow i uid ch p e cat now) l).attempts ∧
      0 ≤ (applyAnswers (addCharacterRow i uid ch p e cat now) l).score) := by
  have step : ∀ (r : CharacterRow) (b : Bool) (now : ℤ),
      r.correct_count ≤ r.attempts → 0 ≤ r.score →
      (recordAnswer r b now).correct_count ≤ (recordAnswer r b now).attempts ∧
      0 ≤ (recordAnswer r b now).score := by
    intro r b now h1 h2
    constructor
    · cases b <;> simp [recordAnswer] <;> omega
    · cases b <;> simp [recordAnswer]
      omega
  have gen : ∀ (l : List (Bool × ℤ)) (r : CharacterRow),
      r.correct_count ≤ r.attempts → 0 ≤ r.score →
      (applyAnswers r l).correct_count ≤ (applyAnswers r l).attempts ∧
      0 ≤ (applyAnswers r l).score := by
    intro l
    induction l with
    | nil => intro r h1 h2; exact ⟨h1, h2⟩
    | cons x xs ih =>
        intro r h1 h2
        have hs := step r x.1 x.2 h1 h2
        simpa [applyAnswers] using ih (recordAnswer r x.1 x.2) hs.1 hs.2
  exact ⟨step, fun i uid ch p e cat now l =>
    gen l (addCharacterRow i uid ch p e cat now) (le_refl 0) (le_refl 0)⟩

/-- Claim C9 witness: one preservation step from the freshly inserted row
and a two-answer sequence from it. -/
theorem scoreInvariants_spec_witness :
    ((recordAnswer (addCharacterRow "i" "u" "c" "p" "e" "k" 0) false 1).correct_count
        ≤ (recordAnswer (addCharacterRow "i" "u" "c" "p" "e" "k" 0) false 1).attempts ∧
      0 ≤ (recordAnswer (addCharacterRow "i" "u" "c" "p" "e" "k" 0) false 1).score) ∧
    ((applyAnswers (addCharacterRow "i" "u" "c" "p" "e" "k" 0) [(true, 1), (false, 2)]).correct_count
        ≤ (applyAnswers (addCharacterRow "i" "u" "c" "p" "e" "k" 0) [(true, 1), (false, 2)]).attempts ∧
      0 ≤ (applyAnswers (addCharacterRow "i" "u" "c" "p" "e" "k" 0) [(true, 1), (false, 2)]).score) :=
  ⟨scoreInvariants_spec.1 (addCharacterRow "i" "u" "c" "p" "e" "k" 0) false 1
      (by decide) (by decide),
    scoreInvariants_spec.2 "i" "u" "c" "p" "e" "k" 0 [(true, 1), (false, 2)]⟩

/-- Claim C1: with no category filter (absent or the sentinel "all") the
ordering query returns a list sorted by (score asc, attempts desc) whose
length is min 10 (store size) — exactly 10 when more than 10 items exist
— and which consists of a first segment of the sorted collection: the
store splits (as a multiset) into the returned rows and a remainder every
element of which sorts at or after every returned row.  With a specific
category filter it returns all and only the items of that category, in
the same sort order, with no truncation. -/
theorem getStudySession_ordering_spec (store : List CharacterRow) :
    (∀ category : Option String, category = none ∨ category = some "all" →
      List.Pairwise charOrd (getStudySession store category) ∧
      (getStudySession store category).length = min 10 store.length ∧
      (10 < store.length → (getStudySession store category).length = 10) ∧
      ∃ rest : List CharacterRow,
        store.Perm (studyRows store category ++ rest) ∧
        ∀ x ∈ studyRows store category, ∀ y ∈ rest, studyLE x y = true) ∧
    (∀ c : String, c ≠ "" → c ≠ "all" →
      List.Pairwise charOrd (getStudySession store (some c)) ∧
      (studyRows store (some c)).Perm (store.filter (fun r => r.category == c)) ∧
      (getStudySession store (some c)).length
        = (store.filter (fun r => r.category == c)).length ∧
      ∀ ch ∈ getStudySession store (some c), ch.category = c) := by
  have hsort : (store.mergeSort studyLE).Pairwise (fun a b => studyLE a b = true) :=
    List.sorted_mergeSort studyLE_trans studyLE_total store
  have hmap : ∀ {l : List CharacterRow},
      l.Pairwise (fun a b => studyLE a b = true) →
      (l.map mapRowToCharacter).Pairwise charOrd := by
    intro l hl
    rw [List.pairwise_map]
    refine hl.imp ?_
    intro a b h
    simp only [studyLE, Bool.or_eq_true, Bool.and_eq_true, decide_eq_true_eq] at h
    simpa [charOrd, mapRowToCharacter] using h
  have hunfTake : ∀ category : Option String, category = none ∨ category = some "all" →
      studyRows store category = (store.mergeSort studyLE).take 10 := by
    rintro category (rfl | rfl)
    · rfl
    · simp [studyRows]
  constructor
  · intro category hcat
    have heq := hunfTake category hcat
    have hsorted10 : ((store.mergeSort studyLE).take 10).Pairwise (fun a b => studyLE a b = true) :=
      List.Pairwise.sublist (List.take_sublist 10 _) hsort
    refine ⟨?_, ?_, ?_, ?_⟩
    · rw [getStudySession, heq]
      exact hmap hsorted10
    · rw [getStudySession, heq]
      simp [List.length_take]
    · intro h10
      rw [getStudySession, heq]
      simp [List.length_take]
      omega
    · refine ⟨(store.mergeSort studyLE).drop 10, ?_, ?_⟩
      · rw [heq]
        rw [List.take_append_drop]
        exact (List.mergeSort_perm store studyLE).symm
      · rw [heq]
        have hp : ((store.mergeSort studyLE).take 10
            ++ (store.mergeSort studyLE).drop 10).Pairwise (fun a b => studyLE a b = true) := by
          rw [List.take_append_drop]
          exact hsort
        intro x hx y hy
        exact (List.pairwise_append.mp hp).2.2 x hx y hy
  · intro c hce hca
    have hcond : c ≠ "" ∧ c ≠ "all" := ⟨hce, hca⟩
    have heq : studyRows store (some c)
        = (store.mergeSort studyLE).filter (fun r => r.category == c) := by
      simp only [studyRows]
      rw [if_pos hcond]
    have hsortedf : ((store.mergeSort studyLE).filter
        (fun r => r.category == c)).Pairwise (fun a b => studyLE a b = true) :=
      List.Pairwise.sublist (List.filter_sublist _) hsort
    refine ⟨?_, ?_, ?_, ?_⟩
    · rw [getStudySession, heq]
      exact hmap hsortedf
    · rw [heq]
      exact (List.mergeSort_perm store studyLE).filter _
    · rw [getStudySession, heq]
      simp only [List.length_map]
      exact ((List.mergeSort_perm store studyLE).filter _).length_eq
    · intro ch hch
      rw [getStudySession, heq] at hch
      obtain ⟨r, hr, rfl⟩ := List.mem_map.mp hch
      have hpc := (List.mem_filter.mp hr).2
      simpa [mapRowToCharacter] using hpc

/-- Claim C1 witness: the ordering-query statement at a concrete 3-row
store, unfiltered and filtered by the category Nature. -/
theorem getStudySession_ordering_spec_witness :
    (List.Pairwise charOrd (getStudySession wStore none) ∧
      (getStudySession wStore none).length = min 10 wStore.length ∧
      (10 < wStore.length → (getStudySession wStore none).length = 10) ∧
      ∃ rest : List CharacterRow,
        wStore.Perm (studyRows wStore none ++ rest) ∧
        ∀ x ∈ studyRows wStore none, ∀ y ∈ rest, studyLE x y = true) ∧
    (List.Pairwise charOrd (getStudySession wStore (some "Nature")) ∧
      (studyRows wStore (some "Nature")).Perm
        (wStore.filter (fun r => r.category == "Nature")) ∧
      (getStudySession wStore (some "Nature")).length
        = (wStore.filter (fun r => r.category == "Nature")).length ∧
      ∀ ch ∈ getStudySession wStore (some "Nature"), ch.category = "Nature") :=
  ⟨(getStudySession_ordering_spec wStore).1 none (Or.inl rfl),
    (getStudySession_ordering_spec wStore).2 "Nature" (by decide) (by decide)⟩

/-- Claim C8: the ordering query is a deterministic pure function of the
store and filter, and its sort is stable: when the store is in its
natural retrieval order (most recently created first, created_at
strictly descending), any two returned rows with equal (score, attempts)
appear in the output with the more recently created one first. -/
theorem getStudySession_stable_spec (store : List CharacterRow) (category : Option String)
    (a b : CharacterRow)
    (hstore : store.Pairwise (fun r s => s.created_at < r.created_at))
    (hsc : a.score = b.score) (hat : a.attempts = b.attempts)
    (hcr : b.created_at < a.created_at)
    (ha : a ∈ studyRows store category) (hb : b ∈ studyRows store category) :
    List.Sublist [a, b] (studyRows store category) ∧
    List.Sublist [mapRowToCharacter a, mapRowToCharacter b] (getStudySession store category) := by
  have hnd : store.Nodup := by
    refine hstore.imp ?_
    intro r s h heq
    rw [heq] at h
    exact lt_irrefl _ h
  have hndm : (store.mergeSort studyLE).Nodup :=
    (List.mergeSort_perm store studyLE).symm.nodup hnd
  have hamem : a ∈ store := mem_store_of_mem_studyRows ha
  have hbmem : b ∈ store := mem_store_of_mem_studyRows hb
  have hpair : List.Sublist [a, b] store :=
    pair_sublist_of_pairwise hstore hamem hbmem hcr (not_lt.mpr (le_of_lt hcr))
  have hle : studyLE a b = true := by
    simp only [studyLE, Bool.or_eq_true, Bool.and_eq_true, decide_eq_true_eq]
    omega
  have hsorted : List.Sublist [a, b] (store.mergeSort studyLE) :=
    List.pair_sublist_mergeSort studyLE_trans studyLE_total hle hpair
  have hrows : List.Sublist [a, b] (studyRows store category) := by
    cases category with
    | none =>
        simp only [studyRows] at hb ⊢
        exact pair_sublist_take 10 _ a b hndm hsorted hb
    | some c =>
        simp only [studyRows] at ha hb ⊢
        by_cases hcnd : c ≠ "" ∧ c ≠ "all"
        · rw [if_pos hcnd] at ha hb ⊢
          have hpa : (a.category == c) = true := (List.mem_filter.mp ha).2
          have hpb : (b.category == c) = true := (List.mem_filter.mp hb).2
          have hfs := hsorted.filter (fun r => r.category == c)
          have hfab : List.filter (fun r => r.category == c) [a, b] = [a, b] := by
            simp [List.filter_cons, hpa, hpb]
          rw [hfab] at hfs
          exact hfs
        · rw [if_neg hcnd] at hb ⊢
          exact pair_sublist_take 10 _ a b hndm hsorted hb
  refine ⟨hrows, ?_⟩
  simpa [getStudySession] using hrows.map mapRowToCharacter

/-- Evaluation of the unfiltered query on the concrete stability store,
which is already in sort order. -/
theorem wStore2_studyRows : studyRows wStore2 none = wStore2 := by
  have hms : wStore2.mergeSort studyLE = wStore2 := List.mergeSort_of_sorted (by decide)
  simp only [studyRows, hms]
  decide

/-- Claim C8 witness: two equal-key rows of a concrete store stay in
creation order in the unfiltered query result. -/
theorem getStudySession_stable_spec_witness :
    List.Sublist [mkRow "X" 0 2 "Nature" 5, mkRow "Y" 0 2 "Nature" 4]
      (studyRows wStore2 none) ∧
    List.Sublist
      [mapRowToCharacter (mkRow "X" 0 2 "Nature" 5),
        mapRowToCharacter (mkRow "Y" 0 2 "Nature" 4)]
      (getStudySession wStore2 none) :=
  getStudySession_stable_spec wStore2 none
    (mkRow "X" 0 2 "Nature" 5) (mkRow "Y" 0 2 "Nature" 4)
    (by decide) rfl rfl (by decide)
    (by rw [wStore2_studyRows]; decide) (by rw [wStore2_studyRows]; decide)
